import Mathlib

/-!
# Verification of `latestfiles_update.py` (cbhacks/misc-scripts)

Shallow embedding of the LatestFiles updater script.  The script is an AWS
Lambda handler: it normalizes an inbound S3/SNS notification payload to a
`(bucket, object key)` pair and then, for every DynamoDB item in the
`LatestFiles` table whose `Bucket` equals the event's bucket and whose
`Pattern` (a regular expression, tested with `re.search`) matches the object
key, performs a conditioned write `SET ObjectKey = :key` guarded by
`attribute_not_exists(ObjectKey) OR (ObjectKey < :key)`.

External collaborators are modelled at their interfaces:
* the JSON payload is a `JVal` (strings, arrays, objects — the subset the
  script touches), with Python dictionary/list access semantics
  (`KeyError`, `TypeError`, `IndexError`, `assert` → `AssertionError`);
* `json.loads` is a parameter `loads : String → Except PyErr JVal`;
* `re.search` is a parameter `search : String → String → Except PyErr Bool`
  (an `.error` result models the `re.error` raised on an invalid pattern);
* DynamoDB is a store `Store : String × String → Option String` mapping
  `(Bucket, Channel)` to the stored `ObjectKey`; transport faults of
  `update_item` are injected by an oracle `fault : String → Option String`
  giving the `ClientError` code, and query pagination is a list of pages.

String comparison in the DynamoDB condition expression is byte-wise on the
UTF-8 encoding, modelled by `keyLt` below.
-/

namespace LatestFiles

/-! ## Definitions

### Byte-wise UTF-8 string order (DynamoDB `<` on strings) -/

/-- The UTF-8 bytes of a string, as naturals.  `String.toUTF8 s` is
`⟨⟨s.data.flatMap String.utf8EncodeChar⟩⟩`; we take the byte list directly. -/
def strBytes (s : String) : List Nat :=
  (s.data.flatMap String.utf8EncodeChar).map (fun b => b.toNat)

/-- Lexicographic strict order on byte lists. -/
def byteLt : List Nat → List Nat → Bool
  | _, [] => false
  | [], _ :: _ => true
  | a :: as, b :: bs => if a < b then true else if b < a then false else byteLt as bs

/-- DynamoDB's `ObjectKey < :key`: byte-wise comparison of UTF-8 encodings. -/
def keyLt (a b : String) : Bool :=
  byteLt (strBytes a) (strBytes b)

/-- Binary maximum of an optional stored pointer and a new key, under the
byte-wise order.  `none` means no pointer stored yet. -/
def ptrMax (p : Option String) (k : String) : Option String :=
  match p with
  | none => some k
  | some old => if keyLt old k then some k else some old

/-- Non-decreasing order on optional pointers: absent precedes everything,
and present pointers are compared byte-wise. -/
def optLe (p q : Option String) : Prop :=
  match p, q with
  | none, _ => True
  | some _, none => False
  | some a, some b => keyLt b a = false

/-- The byte-wise maximum of a list of keys (`none` for the empty list). -/
def byteMax (ks : List String) : Option String :=
  ks.foldl ptrMax none

/-! ### JSON payload model and Python access semantics

The script only ever sees strings, arrays and objects in the payload, so the
model restricts JSON to that subset.  Errors mirror the Python exceptions the
accesses can raise. -/

/-- JSON values, restricted to the subset the script's accesses touch. -/
inductive JVal where
  | jstr (s : String)
  | jarr (elems : List JVal)
  | jobj (fields : List (String × JVal))

/-- Python-level exceptions the handler can raise or re-raise. -/
inductive PyErr where
  | keyError (k : String)
  | indexError
  | typeError
  | assertionError
  | reError (pat : String)
  | clientError (code : String)
  deriving DecidableEq, Repr

/-- `j[k]` for a string subscript: field lookup on a dict, `TypeError` on a
list or string subscripted with a string. -/
def getKey (j : JVal) (k : String) : Except PyErr JVal :=
  match j with
  | .jobj fs =>
    match fs.lookup k with
    | some v => Except.ok v
    | none => Except.error (PyErr.keyError k)
  | .jarr _ => Except.error PyErr.typeError
  | .jstr _ => Except.error PyErr.typeError

/-- Python `len`: element count of a list, key count of a dict, character
count of a string. -/
def pyLen : JVal → Nat
  | .jstr s => s.length
  | .jarr xs => xs.length
  | .jobj fs => fs.length

/-- `j[0]`: first element of a list (`IndexError` when empty), first character
of a string, `KeyError` on a dict (its keys here are strings, never `0`). -/
def idx0 : JVal → Except PyErr JVal
  | .jarr [] => Except.error PyErr.indexError
  | .jarr (x :: _) => Except.ok x
  | .jstr s =>
    match s.data with
    | [] => Except.error PyErr.indexError
    | c :: _ => Except.ok (JVal.jstr (String.mk [c]))
  | .jobj _ => Except.error (PyErr.keyError "0")

/-- Is `pat` a (character-level) substring of `s`?  Used for Python's
`k in string` and as the sample regex engine on literal patterns. -/
def strContainsSub (pat s : String) : Bool :=
  (List.range (s.data.length + 1)).any
    (fun i => (s.data.drop i).take pat.data.length == pat.data)

/-- Python `k in j`: key membership for a dict, element membership for a
list, substring test for a string. -/
def pyIn (k : String) : JVal → Bool
  | .jobj fs => (fs.lookup k).isSome
  | .jarr xs =>
    xs.any (fun x => match x with | .jstr s => s == k | _ => false)
  | .jstr s => strContainsSub k s

/-- Coerce to a string where the script hands the value to an API that
requires one (`json.loads` argument, DynamoDB string attribute values);
anything else is a `TypeError`. -/
def asStr : JVal → Except PyErr String
  | .jstr s => Except.ok s
  | _ => Except.error PyErr.typeError

/-- Lines 80–91 of the script: validate the single-record payload, unwrap an
SNS envelope once (re-parsing `Sns.Message` with `loads`), and extract
`(bucket name, object key)`.

```python
assert len(event['Records']) == 1
if 'Sns' in event['Records'][0]:
    event = json.loads(event['Records'][0]['Sns']['Message'])
    assert len(event['Records']) == 1
s3ev = event['Records'][0]['s3']
...  s3ev['bucket']['name'], s3ev['object']['key']
``` -/
def extractEvent (loads : String → Except PyErr JVal) (event0 : JVal) :
    Except PyErr (String × String) := do
  let recs0 ← getKey event0 "Records"
  if pyLen recs0 ≠ 1 then throw PyErr.assertionError
  let r0 ← idx0 recs0
  let event ←
    if pyIn "Sns" r0 then do
      let sns ← getKey r0 "Sns"
      let msgv ← getKey sns "Message"
      let msg ← asStr msgv
      let ev ← loads msg
      let recs1 ← getKey ev "Records"
      if pyLen recs1 ≠ 1 then throw PyErr.assertionError
      pure ev
    else
      pure event0
  let recs ← getKey event "Records"
  let r ← idx0 recs
  let s3ev ← getKey r "s3"
  let bv ← getKey s3ev "bucket"
  let bnv ← getKey bv "name"
  let bucket ← asStr bnv
  let ov ← getKey s3ev "object"
  let okv ← getKey ov "key"
  let key ← asStr okv
  pure (bucket, key)

/-- A well-formed direct (non-enveloped) payload with one creation record. -/
def s3Payload (bucket key : String) : JVal :=
  JVal.jobj [("Records", JVal.jarr [JVal.jobj [("s3", JVal.jobj
    [("bucket", JVal.jobj [("name", JVal.jstr bucket)]),
     ("object", JVal.jobj [("key", JVal.jstr key)])])]])]

/-- A well-formed SNS-enveloped payload whose single record wraps the
serialized message `msg`. -/
def snsPayload (msg : String) : JVal :=
  JVal.jobj [("Records", JVal.jarr
    [JVal.jobj [("Sns", JVal.jobj [("Message", JVal.jstr msg)])]])]

/-! ### The DynamoDB store and the update loop (lines 92–134)

A query item carries the projected `Channel` and `Pattern` string attributes.
The store maps a `(Bucket, Channel)` key to the stored `ObjectKey` attribute
(`none` when the attribute does not exist).  `update_item` transport faults
are injected by `fault : String → Option String` giving the `ClientError`
code the call raises for that channel instead of performing the write. -/

/-- A query result item: `(Channel, Pattern)`. -/
abbrev Item := String × String

/-- DynamoDB table state: `(Bucket, Channel) ↦ ObjectKey` (string attribute,
`none` when absent). -/
abbrev Store := String × String → Option String

/-- The regex engine interface (`re.search(pattern, key)`): `ok true` when a
match exists anywhere in the string, `ok false` when not, `.error` when the
engine raises (e.g. `re.error` on an invalid pattern). -/
abbrev Engine := String → String → Except PyErr Bool

/-- Per-channel outcome, as printed by the script: `OK` after a committed
write, `Already up to date.` after `ConditionalCheckFailedException`. -/
inductive Outcome where
  | updated
  | alreadyCurrent
  deriving DecidableEq, Repr

/-- Result of the update loop: the table state (mutations persist even past a
raised exception), the per-channel report, and the exception raised, if any. -/
structure RunResult where
  store : Store
  report : List (String × Outcome)
  err : Option PyErr

/-- Set one `(Bucket, Channel)` key's `ObjectKey`. -/
def writeKey (st : Store) (b c v : String) : Store :=
  fun q => if q = (b, c) then some v else st q

/-- The `ClientError` code DynamoDB reports when a condition expression
fails. -/
def condCode : String := "ConditionalCheckFailedException"

/-- `db.update_item` (lines 114–125): `SET ObjectKey = :key` guarded by
`attribute_not_exists(ObjectKey) OR (ObjectKey < :key)`, `<` being byte-wise
on UTF-8.  `inl` is a committed write, `inr code` a `ClientError` with that
code — `condCode` when the store evaluated the condition to false, or an
injected transport fault. -/
def updateItem (fault : String → Option String) (st : Store) (b c k : String) :
    Store ⊕ String :=
  match fault c with
  | some code => Sum.inr code
  | none =>
    match st (b, c) with
    | none => Sum.inl (writeKey st b c k)
    | some old =>
      if keyLt old k then Sum.inl (writeKey st b c k) else Sum.inr condCode

/-- Lines 106–130: the per-item loop of one query page.  Skip an item whose
pattern does not match (`re.search` falsy), otherwise attempt the conditioned
write; a `ClientError` whose code is not `condCode` is re-raised, aborting the
loop. -/
def processItems (search : Engine) (fault : String → Option String)
    (b k : String) : List Item → Store → List (String × Outcome) → RunResult
  | [], st, rep => ⟨st, rep, none⟩
  | (c, pat) :: rest, st, rep =>
    match search pat k with
    | Except.error e => ⟨st, rep, some e⟩
    | Except.ok false => processItems search fault b k rest st rep
    | Except.ok true =>
      match updateItem fault st b c k with
      | Sum.inl st' =>
        processItems search fault b k rest st' (rep ++ [(c, Outcome.updated)])
      | Sum.inr code =>
        if code = condCode then
          processItems search fault b k rest st (rep ++ [(c, Outcome.alreadyCurrent)])
        else
          ⟨st, rep, some (PyErr.clientError code)⟩

/-- Lines 93–134: the `while True` pagination loop.  `pages` is the sequence
of `Items` lists the query returns for this bucket, page `i` carrying a
`LastEvaluatedKey` exactly when `i + 1 < pages.length`; the loop re-queries
with `ExclusiveStartKey` until no `LastEvaluatedKey` is returned.  An
exception raised inside a page aborts the loop. -/
def runPages (search : Engine) (fault : String → Option String) (b k : String) :
    List (List Item) → Store → List (String × Outcome) → RunResult
  | [], st, rep => ⟨st, rep, none⟩
  | pg :: rest, st, rep =>
    let r := processItems search fault b k pg st rep
    match r.err with
    | none => runPages search fault b k rest r.store r.report
    | some _ => r

/-- One full application of a creation event `(b, k)` to the store: the
update loop over all query pages, starting from an empty report. -/
def applyEvent (search : Engine) (fault : String → Option String)
    (pages : List (List Item)) (b k : String) (st : Store) : RunResult :=
  runPages search fault b k pages st []

/-- The whole handler: normalize the payload, then run the update loop.
`pagesFor` gives the query pages for a bucket.  A normalizer failure raises
before any store access. -/
def lambda_handler (loads : String → Except PyErr JVal) (search : Engine)
    (fault : String → Option String) (pagesFor : String → List (List Item))
    (event : JVal) (st : Store) : RunResult :=
  match extractEvent loads event with
  | Except.error e => ⟨st, [], some e⟩
  | Except.ok (b, k) => applyEvent search fault (pagesFor b) b k st

/-- A fault-free `update_item` transport. -/
def noFault : String → Option String := fun _ => none

/-- The store after a finite sequence of fault-free handler invocations, one
per creation event `(bucket, key)`; all conditioned writes a run commits
persist, whether or not the run raised. -/
def applySeq (search : Engine) (pagesFor : String → List (List Item)) :
    List (String × String) → Store → Store
  | [], st => st
  | (b, k) :: rest, st =>
    applySeq search pagesFor rest (applyEvent search noFault (pagesFor b) b k st).store

/-- A sample engine for concrete runs: literal substring search, which is
exactly `re.search`'s unanchored semantics on metacharacter-free patterns.
Never raises. -/
def litSearch (pat s : String) : Except PyErr Bool :=
  Except.ok (strContainsSub pat s)

/-- The empty table. -/
def emptyStore : Store := fun _ => none

/-- The boolean verdict of an engine call, `false` when the engine raises
(only used under a `TotalEngine` hypothesis). -/
def matchB (search : Engine) (pat k : String) : Bool :=
  match search pat k with
  | Except.ok t => t
  | Except.error _ => false

/-- An engine that never raises (all patterns it is asked about compile). -/
def TotalEngine (search : Engine) : Prop :=
  ∀ pat s, ∃ t, search pat s = Except.ok t

/-- The spec's wording of the write precondition: "`pointer` is absent, OR
stored `pointer` is strictly less than `event.object_id` under byte-wise
string comparison". -/
def specPrecond (st : Store) (b c k : String) : Prop :=
  st (b, c) = none ∨ ∃ old, st (b, c) = some old ∧ keyLt old k = true

/-- A key whose stored pointer exists and is not byte-wise below `k`. -/
def goodPtr (st : Store) (q : String × String) (k : String) : Prop :=
  ∃ v, st q = some v ∧ keyLt v k = false

/-- The object ids among `events` (a list of `(bucket, key)` pairs) that hit
bucket `b` and match pattern `p` under `search`. -/
def matchedKeys (search : Engine) (p b : String)
    (events : List (String × String)) : List String :=
  (events.filter (fun e => e.1 == b && matchB search p e.2)).map Prod.snd

/-- One event's effect on the pointer of a channel of bucket `b` with
pattern `p`: advance to the byte-wise maximum when the event hits `b` and
matches `p`, otherwise leave unchanged. -/
def chanStep (search : Engine) (p b : String) (acc : Option String)
    (e : String × String) : Option String :=
  if (e.1 == b) && matchB search p e.2 then ptrMax acc e.2 else acc

/-! ## Theorems

### The byte-wise order -/

theorem byteLt_irrefl (l : List Nat) : byteLt l l = false := by
  induction l with
  | nil => rfl
  | cons a as ih => simp [byteLt, ih]

theorem byteLt_asymm {l m : List Nat} (h : byteLt l m = true) : byteLt m l = false := by
  induction l generalizing m with
  | nil =>
    cases m with
    | nil => simp [byteLt] at h
    | cons b bs => rfl
  | cons a as ih =>
    cases m with
    | nil => simp [byteLt] at h
    | cons b bs =>
      rcases Nat.lt_trichotomy a b with hab | hab | hab
      · simp [byteLt, hab, Nat.lt_asymm hab]
      · subst hab
        simp [byteLt, Nat.lt_irrefl] at h ⊢
        exact ih h
      · simp [byteLt, hab, Nat.lt_asymm hab] at h

/-- Totality of the byte order, in resolution form: if `z < x` then for any
`y`, `z < y` or `y < x`. -/
theorem byteLt_resolve {x z : List Nat} (y : List Nat) (h : byteLt z x = true) :
    byteLt z y = true ∨ byteLt y x = true := by
  induction z generalizing x y with
  | nil =>
    cases x with
    | nil => simp [byteLt] at h
    | cons a as =>
      cases y with
      | nil => right; rfl
      | cons b bs => left; rfl
  | cons c cs ih =>
    cases x with
    | nil => simp [byteLt] at h
    | cons a as =>
      cases y with
      | nil => right; rfl
      | cons b bs =>
        rcases Nat.lt_trichotomy c b with hcb | hcb | hcb
        · left; simp [byteLt, hcb]
        · subst hcb
          by_cases hca : c < a
          · right; simp [byteLt, hca]
          · by_cases hac : a < c
            · simp [byteLt, hca, hac] at h
            · simp [byteLt, hca, hac] at h
              rcases ih bs h with h1 | h1
              · left; simp [byteLt, Nat.lt_irrefl]; exact h1
              · right; simp [byteLt, hca, hac]; exact h1
        · right
          by_cases hca : c < a
          · simp [byteLt, Nat.lt_trans hcb hca]
          · by_cases hac : a < c
            · simp [byteLt, hca, hac] at h
            · have hce : c = a :=
                Nat.le_antisymm (Nat.le_of_not_lt hac) (Nat.le_of_not_lt hca)
              subst hce
              simp [byteLt, hcb]

theorem keyLt_irrefl (s : String) : keyLt s s = false :=
  byteLt_irrefl _

theorem keyLt_asymm {a b : String} (h : keyLt a b = true) : keyLt b a = false :=
  byteLt_asymm h

theorem keyLt_resolve {a c : String} (b : String) (h : keyLt c a = true) :
    keyLt c b = true ∨ keyLt b a = true :=
  byteLt_resolve _ h

theorem optLe_refl (p : Option String) : optLe p p := by
  cases p with
  | none => trivial
  | some a => simp [optLe, keyLt_irrefl]

theorem optLe_trans {p q r : Option String} (h1 : optLe p q) (h2 : optLe q r) :
    optLe p r := by
  cases p with
  | none => trivial
  | some a =>
    cases q with
    | none => exact absurd h1 (by simp [optLe])
    | some b =>
      cases r with
      | none => exact absurd h2 (by simp [optLe])
      | some c =>
        simp only [optLe] at h1 h2 ⊢
        by_contra hc
        rcases keyLt_resolve b (by simpa using Bool.of_not_eq_false hc) with h | h
        · exact absurd h (by simp [h2])
        · exact absurd h (by simp [h1])

/-- `optLe p (ptrMax p k)`: a conditioned advance never decreases a pointer. -/
theorem optLe_ptrMax (p : Option String) (k : String) : optLe p (ptrMax p k) := by
  cases p with
  | none => trivial
  | some old =>
    by_cases h : keyLt old k
    · simp [ptrMax, h, optLe, keyLt_asymm h]
    · simp [ptrMax, h, optLe, keyLt_irrefl]

example : keyLt "builds/v0.zip" "builds/v1.zip" = true := by decide
example : keyLt "b" "a" = false := by decide
example : keyLt "abc" "abc" = false := by decide

example :
    extractEvent (fun _ => Except.error PyErr.typeError) (s3Payload "bkt" "a/b.zip")
      = Except.ok ("bkt", "a/b.zip") := by rfl

example :
    (applyEvent litSearch noFault [[("c1", "builds/")]] "bkt" "builds/v1.zip"
      emptyStore).report = [("c1", Outcome.updated)] := by rfl

example :
    (applyEvent litSearch noFault [[("c1", "builds/")]] "bkt" "builds/v1.zip"
      emptyStore).store ("bkt", "c1") = some "builds/v1.zip" := by rfl

/-! ### Composition of the update loop -/

theorem processItems_append_ok {search : Engine} {fault : String → Option String}
    {b k : String} {xs : List Item} {st st₁ : Store}
    {rep rep₁ : List (String × Outcome)} (ys : List Item)
    (h : processItems search fault b k xs st rep = ⟨st₁, rep₁, none⟩) :
    processItems search fault b k (xs ++ ys) st rep
      = processItems search fault b k ys st₁ rep₁ := by
  induction xs generalizing st rep with
  | nil =>
    simp only [processItems] at h
    cases h
    rfl
  | cons it rest ih =>
    obtain ⟨c, pat⟩ := it
    simp only [processItems, List.cons_append] at h ⊢
    cases hs : search pat k with
    | error e => rw [hs] at h; cases h
    | ok t =>
      rw [hs] at h
      cases t with
      | false => exact ih h
      | true =>
        cases hu : updateItem fault st b c k with
        | inl st' => rw [hu] at h; exact ih h
        | inr code =>
          rw [hu] at h
          by_cases hc : code = condCode
          · simp only [hc, if_pos rfl] at h ⊢
            exact ih h
          · simp only [if_neg hc] at h
            cases h

theorem processItems_append_err {search : Engine} {fault : String → Option String}
    {b k : String} {xs : List Item} {st : Store}
    {rep : List (String × Outcome)} {e : PyErr} (ys : List Item)
    (h : (processItems search fault b k xs st rep).err = some e) :
    processItems search fault b k (xs ++ ys) st rep
      = processItems search fault b k xs st rep := by
  induction xs generalizing st rep with
  | nil => simp [processItems] at h
  | cons it rest ih =>
    obtain ⟨c, pat⟩ := it
    simp only [processItems, List.cons_append] at h ⊢
    cases hs : search pat k with
    | error e' => rfl
    | ok t =>
      rw [hs] at h
      cases t with
      | false => exact ih h
      | true =>
        cases hu : updateItem fault st b c k with
        | inl st' => rw [hu] at h; exact ih h
        | inr code =>
          rw [hu] at h
          by_cases hc : code = condCode
          · simp only [hc, if_pos rfl] at h ⊢
            exact ih h
          · simp only [if_neg hc]

/-- The pagination loop is the single-page loop on the concatenation of the
pages. -/
theorem runPages_join (search : Engine) (fault : String → Option String)
    (b k : String) (pages : List (List Item)) (st : Store)
    (rep : List (String × Outcome)) :
    runPages search fault b k pages st rep
      = processItems search fault b k pages.flatten st rep := by
  induction pages generalizing st rep with
  | nil => rfl
  | cons pg rest ih =>
    show (match (processItems search fault b k pg st rep).err with
      | none => runPages search fault b k rest
          (processItems search fault b k pg st rep).store
          (processItems search fault b k pg st rep).report
      | some _ => processItems search fault b k pg st rep)
      = processItems search fault b k (pg ++ rest.flatten) st rep
    cases he : (processItems search fault b k pg st rep).err with
    | none =>
      have h : processItems search fault b k pg st rep
          = ⟨(processItems search fault b k pg st rep).store,
             (processItems search fault b k pg st rep).report, none⟩ := by
        rw [← he]
      rw [processItems_append_ok rest.flatten h, ih]
    | some e =>
      rw [processItems_append_err rest.flatten he]

/-! ### The conditioned write -/

theorem updateItem_fault {fault : String → Option String} {st : Store}
    {b c k code : String} (hf : fault c = some code) :
    updateItem fault st b c k = Sum.inr code := by
  simp [updateItem, hf]

theorem updateItem_absent {fault : String → Option String} {st : Store}
    {b c k : String} (hf : fault c = none) (hst : st (b, c) = none) :
    updateItem fault st b c k = Sum.inl (writeKey st b c k) := by
  simp [updateItem, hf, hst]

theorem updateItem_lt {fault : String → Option String} {st : Store}
    {b c k old : String} (hf : fault c = none) (hst : st (b, c) = some old)
    (hlt : keyLt old k = true) :
    updateItem fault st b c k = Sum.inl (writeKey st b c k) := by
  simp [updateItem, hf, hst, hlt]

theorem updateItem_ge {fault : String → Option String} {st : Store}
    {b c k old : String} (hf : fault c = none) (hst : st (b, c) = some old)
    (hlt : keyLt old k = false) :
    updateItem fault st b c k = Sum.inr condCode := by
  simp [updateItem, hf, hst, hlt]

theorem updateItem_inl_spec {fault : String → Option String} {st : Store}
    {b c k : String} {st' : Store}
    (h : updateItem fault st b c k = Sum.inl st') :
    st' = writeKey st b c k ∧ specPrecond st b c k ∧ fault c = none := by
  cases hf : fault c with
  | some code => rw [updateItem_fault hf] at h; cases h
  | none =>
    cases hst : st (b, c) with
    | none =>
      rw [updateItem_absent hf hst] at h
      cases h
      exact ⟨rfl, Or.inl hst, rfl⟩
    | some old =>
      cases hlt : keyLt old k with
      | true =>
        rw [updateItem_lt hf hst hlt] at h
        cases h
        exact ⟨rfl, Or.inr ⟨old, hst, hlt⟩, rfl⟩
      | false =>
        rw [updateItem_ge hf hst hlt] at h
        cases h

theorem updateItem_noFault_pos {st : Store} {b c k : String}
    (hp : specPrecond st b c k) :
    updateItem noFault st b c k = Sum.inl (writeKey st b c k) := by
  rcases hp with hnone | ⟨old, hold, hlt⟩
  · exact updateItem_absent rfl hnone
  · exact updateItem_lt rfl hold hlt

theorem updateItem_noFault_neg {st : Store} {b c k : String}
    (hp : ¬ specPrecond st b c k) :
    updateItem noFault st b c k = Sum.inr condCode := by
  cases hst : st (b, c) with
  | none => exact absurd (Or.inl hst) hp
  | some old =>
    cases hlt : keyLt old k with
    | true => exact absurd (Or.inr ⟨old, hst, hlt⟩) hp
    | false => exact updateItem_ge rfl hst hlt

theorem updateItem_noFault_inr_code {st : Store} {b c k code : String}
    (h : updateItem noFault st b c k = Sum.inr code) : code = condCode := by
  cases hst : st (b, c) with
  | none => rw [updateItem_absent rfl hst] at h; cases h
  | some old =>
    cases hlt : keyLt old k with
    | true => rw [updateItem_lt rfl hst hlt] at h; cases h
    | false => rw [updateItem_ge rfl hst hlt] at h; cases h; rfl

/-! ### Step lemmas for the item loop -/

theorem processItems_cons_raise {search : Engine} {fault : String → Option String}
    {b k c pat : String} {rest : List Item} {st : Store}
    {rep : List (String × Outcome)} {e : PyErr}
    (h : search pat k = Except.error e) :
    processItems search fault b k ((c, pat) :: rest) st rep = ⟨st, rep, some e⟩ := by
  simp [processItems, h]

theorem processItems_cons_skip {search : Engine} {fault : String → Option String}
    {b k c pat : String} {rest : List Item} {st : Store}
    {rep : List (String × Outcome)}
    (h : search pat k = Except.ok false) :
    processItems search fault b k ((c, pat) :: rest) st rep
      = processItems search fault b k rest st rep := by
  simp [processItems, h]

theorem processItems_cons_write {search : Engine} {fault : String → Option String}
    {b k c pat : String} {rest : List Item} {st st' : Store}
    {rep : List (String × Outcome)}
    (h : search pat k = Except.ok true)
    (hu : updateItem fault st b c k = Sum.inl st') :
    processItems search fault b k ((c, pat) :: rest) st rep
      = processItems search fault b k rest st' (rep ++ [(c, Outcome.updated)]) := by
  simp [processItems, h, hu]

theorem processItems_cons_cond {search : Engine} {fault : String → Option String}
    {b k c pat : String} {rest : List Item} {st : Store}
    {rep : List (String × Outcome)}
    (h : search pat k = Except.ok true)
    (hu : updateItem fault st b c k = Sum.inr condCode) :
    processItems search fault b k ((c, pat) :: rest) st rep
      = processItems search fault b k rest st (rep ++ [(c, Outcome.alreadyCurrent)]) := by
  simp [processItems, h, hu]

theorem processItems_cons_fatal {search : Engine} {fault : String → Option String}
    {b k c pat : String} {rest : List Item} {st : Store}
    {rep : List (String × Outcome)} {code : String}
    (h : search pat k = Except.ok true)
    (hu : updateItem fault st b c k = Sum.inr code) (hc : code ≠ condCode) :
    processItems search fault b k ((c, pat) :: rest) st rep
      = ⟨st, rep, some (PyErr.clientError code)⟩ := by
  simp [processItems, h, hu, hc]

/-! ### Frame, monotonicity and termination of the item loop -/

theorem processItems_frame {search : Engine} {fault : String → Option String}
    {b k : String} {items : List Item} {st : Store}
    {rep : List (String × Outcome)} (q : String × String)
    (hq : ∀ it ∈ items, q ≠ (b, it.1)) :
    (processItems search fault b k items st rep).store q = st q := by
  induction items generalizing st rep with
  | nil => rfl
  | cons it rest ih =>
    obtain ⟨c, pat⟩ := it
    have hqc : q ≠ (b, c) := hq (c, pat) (List.mem_cons_self _ _)
    have hq' : ∀ it ∈ rest, q ≠ (b, it.1) :=
      fun it h => hq it (List.mem_cons_of_mem _ h)
    simp only [processItems]
    cases hs : search pat k with
    | error e => rfl
    | ok t =>
      cases t with
      | false => exact ih hq'
      | true =>
        cases hu : updateItem fault st b c k with
        | inl st' =>
          obtain ⟨hw, -, -⟩ := updateItem_inl_spec hu
          rw [ih hq', hw, writeKey, if_neg hqc]
        | inr code =>
          by_cases hc : code = condCode
          · simp only [hc, if_pos rfl]
            exact ih hq'
          · simp only [if_neg hc]

theorem processItems_mono {search : Engine} {fault : String → Option String}
    {b k : String} (items : List Item) (st : Store)
    (rep : List (String × Outcome)) (q : String × String) :
    optLe (st q) ((processItems search fault b k items st rep).store q) := by
  induction items generalizing st rep with
  | nil => exact optLe_refl _
  | cons it rest ih =>
    obtain ⟨c, pat⟩ := it
    simp only [processItems]
    cases hs : search pat k with
    | error e => exact optLe_refl _
    | ok t =>
      cases t with
      | false => exact ih st rep
      | true =>
        cases hu : updateItem fault st b c k with
        | inl st' =>
          obtain ⟨hw, hp, -⟩ := updateItem_inl_spec hu
          have h1 : optLe (st q) (st' q) := by
            subst hw
            by_cases hq : q = (b, c)
            · subst hq
              rw [writeKey, if_pos rfl]
              rcases hp with hnone | ⟨old, hold, hlt⟩
              · rw [hnone]; trivial
              · rw [hold]
                simp only [optLe]
                exact keyLt_asymm hlt
            · rw [writeKey, if_neg hq]
              exact optLe_refl _
          exact optLe_trans h1 (ih st' _)
        | inr code =>
          by_cases hc : code = condCode
          · simp only [hc, if_pos rfl]
            exact ih st _
          · simp only [if_neg hc]
            exact optLe_refl _

theorem processItems_noerr {search : Engine} {b k : String}
    (hs : TotalEngine search) (items : List Item) (st : Store)
    (rep : List (String × Outcome)) :
    (processItems search noFault b k items st rep).err = none := by
  induction items generalizing st rep with
  | nil => rfl
  | cons it rest ih =>
    obtain ⟨c, pat⟩ := it
    obtain ⟨t, ht⟩ := hs pat k
    cases t with
    | false =>
      rw [processItems_cons_skip ht]
      exact ih st rep
    | true =>
      cases hu : updateItem noFault st b c k with
      | inl st' =>
        rw [processItems_cons_write ht hu]
        exact ih st' _
      | inr code =>
        have hcode := updateItem_noFault_inr_code hu
        subst hcode
        rw [processItems_cons_cond ht hu]
        exact ih st _

/-- Every report entry beyond the accumulator comes from an item whose
pattern matched. -/
theorem processItems_report_mem {search : Engine} {fault : String → Option String}
    {b k : String} {items : List Item} {st : Store}
    {rep : List (String × Outcome)} (x : String × Outcome)
    (hx : x ∈ (processItems search fault b k items st rep).report) :
    x ∈ rep ∨ ∃ it, it ∈ items ∧ it.1 = x.1 ∧ search it.2 k = Except.ok true := by
  induction items generalizing st rep with
  | nil => exact Or.inl hx
  | cons it rest ih =>
    obtain ⟨c, pat⟩ := it
    simp only [processItems] at hx
    cases hs : search pat k with
    | error e =>
      rw [hs] at hx
      exact Or.inl hx
    | ok t =>
      rw [hs] at hx
      cases t with
      | false =>
        rcases ih hx with h | ⟨it, hmem, h1, h2⟩
        · exact Or.inl h
        · exact Or.inr ⟨it, List.mem_cons_of_mem _ hmem, h1, h2⟩
      | true =>
        cases hu : updateItem fault st b c k with
        | inl st' =>
          rw [hu] at hx
          rcases ih hx with h | ⟨it, hmem, h1, h2⟩
          · rcases List.mem_append.mp h with h' | h'
            · exact Or.inl h'
            · refine Or.inr ⟨(c, pat), List.mem_cons_self _ _, ?_, hs⟩
              have : x = (c, Outcome.updated) := by simpa using h'
              rw [this]
          · exact Or.inr ⟨it, List.mem_cons_of_mem _ hmem, h1, h2⟩
        | inr code =>
          rw [hu] at hx
          by_cases hc : code = condCode
          · simp only [hc, if_pos rfl] at hx
            rcases ih hx with h | ⟨it, hmem, h1, h2⟩
            · rcases List.mem_append.mp h with h' | h'
              · exact Or.inl h'
              · refine Or.inr ⟨(c, pat), List.mem_cons_self _ _, ?_, hs⟩
                have : x = (c, Outcome.alreadyCurrent) := by simpa using h'
                rw [this]
            · exact Or.inr ⟨it, List.mem_cons_of_mem _ hmem, h1, h2⟩
          · simp only [if_neg hc] at hx
            exact Or.inl hx

/-! ### Evolution of a single channel's pointer -/

/-- Processing a fault-free item list whose only item for channel `c` is
`(c, p)` moves the pointer at `(b, c)` to the byte-wise maximum of the old
pointer and `k` when `p` matches `k`, and leaves it untouched otherwise. -/
theorem processItems_at_c {search : Engine} {b k c p : String}
    (hs : TotalEngine search) {items : List Item}
    (hone : items.filter (fun it => it.1 == c) = [(c, p)])
    (st : Store) (rep : List (String × Outcome)) :
    (processItems search noFault b k items st rep).store (b, c)
      = if matchB search p k then ptrMax (st (b, c)) k else st (b, c) := by
  induction items generalizing st rep with
  | nil => simp at hone
  | cons it rest ih =>
    obtain ⟨c', pat⟩ := it
    by_cases hc : c' = c
    · subst hc
      rw [List.filter_cons] at hone
      simp only [beq_self_eq_true, if_pos] at hone
      have hpat : pat = p := by
        have := List.head_eq_of_cons_eq hone
        exact (Prod.mk.injEq _ _ _ _).mp this |>.2
      subst hpat
      have hrest : rest.filter (fun it => it.1 == c') = [] :=
        List.tail_eq_of_cons_eq hone
      have hfr : ∀ it ∈ rest, ((b, c') : String × String) ≠ (b, it.1) := by
        intro it hmem heq
        have h1 : it.1 ≠ c' := by
          have := List.filter_eq_nil_iff.mp hrest it hmem
          simpa using this
        exact h1 (((Prod.mk.injEq _ _ _ _).mp heq).2.symm)
      obtain ⟨t, ht⟩ := hs pat k
      have hm : matchB search pat k = t := by simp [matchB, ht]
      cases t with
      | false =>
        rw [processItems_cons_skip ht, processItems_frame _ hfr, hm, if_neg]
        simp
      | true =>
        cases hst : st (b, c') with
        | none =>
          rw [processItems_cons_write ht (updateItem_absent rfl hst),
            processItems_frame _ hfr, hm, if_pos rfl]
          simp [writeKey, hst, ptrMax]
        | some old =>
          cases hlt : keyLt old k with
          | true =>
            rw [processItems_cons_write ht (updateItem_lt rfl hst hlt),
              processItems_frame _ hfr, hm, if_pos rfl]
            simp [writeKey, hst, ptrMax, hlt]
          | false =>
            rw [processItems_cons_cond ht (updateItem_ge rfl hst hlt),
              processItems_frame _ hfr, hm, if_pos rfl]
            simp [hst, ptrMax, hlt]
    · have hrest : rest.filter (fun it => it.1 == c) = [(c, p)] := by
        rw [List.filter_cons] at hone
        simpa [hc] using hone
      obtain ⟨t, ht⟩ := hs pat k
      cases t with
      | false =>
        rw [processItems_cons_skip ht]
        exact ih hrest st rep
      | true =>
        cases hu : updateItem noFault st b c' k with
        | inl st' =>
          rw [processItems_cons_write ht hu]
          obtain ⟨hw, -, -⟩ := updateItem_inl_spec hu
          have hsame : st' (b, c) = st (b, c) := by
            subst hw
            have hne : ((b, c) : String × String) ≠ (b, c') := by
              intro heq
              exact hc (((Prod.mk.injEq _ _ _ _).mp heq).2.symm)
            simp [writeKey, hne]
          rw [ih hrest st' _, hsame]
        | inr code =>
          have hcode := updateItem_noFault_inr_code hu
          subst hcode
          rw [processItems_cons_cond ht hu]
          exact ih hrest st _

/-- The pointer at `(b, c)` after one full fault-free event application for
bucket `b'` (querying `pagesFor b'`): advanced to the byte-wise maximum when
the event hit bucket `b` and matched `p`, untouched otherwise. -/
theorem applyEvent_at_chan {search : Engine} (hs : TotalEngine search)
    (pagesFor : String → List (List Item)) (b : String) {c p : String}
    (hone : (pagesFor b).flatten.filter (fun it => it.1 == c) = [(c, p)])
    (b' k : String) (st : Store) :
    (applyEvent search noFault (pagesFor b') b' k st).store (b, c)
      = chanStep search p b (st (b, c)) (b', k) := by
  unfold applyEvent
  rw [runPages_join]
  by_cases hb : b' = b
  · subst hb
    rw [processItems_at_c hs hone st []]
    by_cases hm : matchB search p k
    · simp [chanStep, hm]
    · simp [chanStep, hm]
  · have hfr : ∀ it ∈ (pagesFor b').flatten,
        ((b, c) : String × String) ≠ (b', it.1) := by
      intro it hmem heq
      exact hb (((Prod.mk.injEq _ _ _ _).mp heq).1.symm)
    rw [processItems_frame _ hfr]
    have hbb : (b' == b) = false := by simpa using (fun h => hb h)
    simp [chanStep, hbb]

theorem applyEvent_mono (search : Engine) (fault : String → Option String)
    (pages : List (List Item)) (b k : String) (st : Store) (q : String × String) :
    optLe (st q) ((applyEvent search fault pages b k st).store q) := by
  unfold applyEvent
  rw [runPages_join]
  exact processItems_mono _ _ _ _

/-! ### Sequences of applications -/

theorem applySeq_append (search : Engine) (pagesFor : String → List (List Item))
    (xs ys : List (String × String)) (st : Store) :
    applySeq search pagesFor (xs ++ ys) st
      = applySeq search pagesFor ys (applySeq search pagesFor xs st) := by
  induction xs generalizing st with
  | nil => rfl
  | cons e rest ih =>
    obtain ⟨b, k⟩ := e
    simp only [List.cons_append, applySeq]
    exact ih _

theorem applySeq_take_mono (search : Engine) (pagesFor : String → List (List Item))
    (events : List (String × String)) (st₀ : Store) (q : String × String) (i : Nat) :
    optLe (applySeq search pagesFor (events.take i) st₀ q)
          (applySeq search pagesFor (events.take (i + 1)) st₀ q) := by
  rw [List.take_succ, applySeq_append]
  cases he : events[i]? with
  | none =>
    simp only [Option.toList]
    exact optLe_refl _
  | some e =>
    obtain ⟨b, k⟩ := e
    simp only [Option.toList]
    exact applyEvent_mono search noFault (pagesFor b) b k _ q

/-- The pointer at `(b, c)` after a fault-free event sequence is the fold of
the byte-wise maximum over the events that hit bucket `b` and matched `p`. -/
theorem applySeq_at_chan {search : Engine} (hs : TotalEngine search)
    {pagesFor : String → List (List Item)} {b c p : String}
    (hone : (pagesFor b).flatten.filter (fun it => it.1 == c) = [(c, p)])
    (events : List (String × String)) (st₀ : Store) :
    applySeq search pagesFor events st₀ (b, c)
      = events.foldl (chanStep search p b) (st₀ (b, c)) := by
  induction events generalizing st₀ with
  | nil => rfl
  | cons e rest ih =>
    obtain ⟨b', k⟩ := e
    simp only [applySeq, List.foldl_cons]
    rw [ih _, applyEvent_at_chan hs pagesFor b hone b' k st₀]

/-- Fold of the conditional byte-wise maximum, rewritten over the filtered
matching keys. -/
theorem chanFold_filter (search : Engine) (p b : String)
    (events : List (String × String)) (init : Option String) :
    events.foldl (chanStep search p b) init
      = ((events.filter (fun e => (e.1 == b) && matchB search p e.2)).map
          Prod.snd).foldl ptrMax init := by
  induction events generalizing init with
  | nil => rfl
  | cons e rest ih =>
    rw [List.foldl_cons, List.filter_cons]
    cases hp : ((e.1 == b) && matchB search p e.2) with
    | true =>
      have hstep : chanStep search p b init e = ptrMax init e.2 := by
        simp [chanStep, hp]
      rw [if_pos rfl, hstep, List.map_cons, List.foldl_cons]
      exact ih _
    | false =>
      have hstep : chanStep search p b init e = init := by
        simp [chanStep, hp]
      rw [hstep, if_neg (by simp)]
      exact ih _

/-! ### Pointers at or above the incoming key -/

theorem goodPtr_write (st : Store) (b c k : String) (q : String × String)
    (h : goodPtr st q k) : goodPtr (writeKey st b c k) q k := by
  obtain ⟨v, hv, hlt⟩ := h
  by_cases hq : q = (b, c)
  · subst hq
    exact ⟨k, by simp [writeKey], keyLt_irrefl k⟩
  · exact ⟨v, by simp [writeKey, hq, hv], hlt⟩

theorem updateItem_noFault_inr_good {st : Store} {b c k : String}
    (h : updateItem noFault st b c k = Sum.inr condCode) : goodPtr st (b, c) k := by
  cases hst : st (b, c) with
  | none => rw [updateItem_absent rfl hst] at h; cases h
  | some old =>
    cases hlt : keyLt old k with
    | true => rw [updateItem_lt rfl hst hlt] at h; cases h
    | false => exact ⟨old, hst, hlt⟩

/-- The item loop only ever writes the incoming key `k`, so it preserves
"stored pointer present and not below `k`" at every store key. -/
theorem processItems_goodPtr_pres {search : Engine} {fault : String → Option String}
    {b k : String} {items : List Item} {st : Store}
    {rep : List (String × Outcome)} (q : String × String)
    (h : goodPtr st q k) :
    goodPtr (processItems search fault b k items st rep).store q k := by
  induction items generalizing st rep with
  | nil => exact h
  | cons it rest ih =>
    obtain ⟨c, pat⟩ := it
    cases hs : search pat k with
    | error e => rw [processItems_cons_raise hs]; exact h
    | ok t =>
      cases t with
      | false => rw [processItems_cons_skip hs]; exact ih h
      | true =>
        cases hu : updateItem fault st b c k with
        | inl st' =>
          rw [processItems_cons_write hs hu]
          obtain ⟨hw, -, -⟩ := updateItem_inl_spec hu
          subst hw
          exact ih (goodPtr_write st b c k q h)
        | inr code =>
          by_cases hc : code = condCode
          · subst hc
            rw [processItems_cons_cond hs hu]
            exact ih h
          · rw [processItems_cons_fatal hs hu hc]
            exact h

/-- After a fault-free run, every item whose pattern matched has a stored
pointer at `(b, channel)` that is present and not below `k`. -/
theorem processItems_goodPtr_est {search : Engine} {b k : String}
    (hs : TotalEngine search) {items : List Item} (st : Store)
    (rep : List (String × Outcome)) (it : Item) (hmem : it ∈ items)
    (hmatch : search it.2 k = Except.ok true) :
    goodPtr (processItems search noFault b k items st rep).store (b, it.1) k := by
  induction items generalizing st rep with
  | nil => cases hmem
  | cons hd rest ih =>
    obtain ⟨c, pat⟩ := hd
    rcases List.mem_cons.mp hmem with heq | hmem'
    · subst heq
      cases hu : updateItem noFault st b c k with
      | inl st' =>
        rw [processItems_cons_write hmatch hu]
        obtain ⟨hw, -, -⟩ := updateItem_inl_spec hu
        subst hw
        exact processItems_goodPtr_pres _ ⟨k, by simp [writeKey], keyLt_irrefl k⟩
      | inr code =>
        have hcode := updateItem_noFault_inr_code hu
        subst hcode
        rw [processItems_cons_cond hmatch hu]
        exact processItems_goodPtr_pres _ (updateItem_noFault_inr_good hu)
    · obtain ⟨t, ht⟩ := hs pat k
      cases t with
      | false =>
        rw [processItems_cons_skip ht]
        exact ih st rep hmem'
      | true =>
        cases hu : updateItem noFault st b c k with
        | inl st' =>
          rw [processItems_cons_write ht hu]
          exact ih st' _ hmem'
        | inr code =>
          have hcode := updateItem_noFault_inr_code hu
          subst hcode
          rw [processItems_cons_cond ht hu]
          exact ih st _ hmem'

/-- When every matching item's channel already stores a pointer not below
`k`, the fault-free loop mutates nothing and reports every matching channel
as already-current. -/
theorem processItems_allGood {search : Engine} {b k : String}
    (hs : TotalEngine search) {items : List Item} (st : Store)
    (rep : List (String × Outcome))
    (hgood : ∀ it ∈ items, search it.2 k = Except.ok true → goodPtr st (b, it.1) k) :
    processItems search noFault b k items st rep
      = ⟨st, rep ++ (items.filter (fun it => matchB search it.2 k)).map
          (fun it => (it.1, Outcome.alreadyCurrent)), none⟩ := by
  induction items generalizing rep with
  | nil => simp [processItems]
  | cons hd rest ih =>
    obtain ⟨c, pat⟩ := hd
    obtain ⟨t, ht⟩ := hs pat k
    have hm : matchB search pat k = t := by simp [matchB, ht]
    have hgood' : ∀ it ∈ rest, search it.2 k = Except.ok true → goodPtr st (b, it.1) k :=
      fun it h1 h2 => hgood it (List.mem_cons_of_mem _ h1) h2
    cases t with
    | false =>
      rw [processItems_cons_skip ht, List.filter_cons, if_neg (by simp [hm]),
        ih rep hgood']
    | true =>
      obtain ⟨v, hv, hlt⟩ := hgood (c, pat) (List.mem_cons_self _ _) ht
      rw [processItems_cons_cond ht (updateItem_ge rfl hv hlt), List.filter_cons,
        if_pos (by simp [hm]), ih (rep ++ [(c, Outcome.alreadyCurrent)]) hgood']
      simp

/-! ### Non-matching channels are untouched -/

/-- If every item for channel `c` fails its pattern test, the loop leaves the
pointer at `(b, c)` unchanged. -/
theorem processItems_frame_nomatch {search : Engine} {fault : String → Option String}
    {b k : String} {items : List Item} {st : Store}
    {rep : List (String × Outcome)} (c : String)
    (hc : ∀ it ∈ items, it.1 = c → search it.2 k = Except.ok false) :
    (processItems search fault b k items st rep).store (b, c) = st (b, c) := by
  induction items generalizing st rep with
  | nil => rfl
  | cons hd rest ih =>
    obtain ⟨c', pat⟩ := hd
    have hc' : ∀ it ∈ rest, it.1 = c → search it.2 k = Except.ok false :=
      fun it h1 h2 => hc it (List.mem_cons_of_mem _ h1) h2
    cases hs : search pat k with
    | error e => rw [processItems_cons_raise hs]
    | ok t =>
      cases t with
      | false => rw [processItems_cons_skip hs]; exact ih hc'
      | true =>
        have hcc : c' ≠ c := by
          intro heq
          have := hc (c', pat) (List.mem_cons_self _ _) heq
          rw [hs] at this
          cases this
        cases hu : updateItem fault st b c' k with
        | inl st' =>
          rw [processItems_cons_write hs hu]
          obtain ⟨hw, -, -⟩ := updateItem_inl_spec hu
          rw [ih hc']
          subst hw
          have hne : ((b, c) : String × String) ≠ (b, c') := by
            intro heq
            exact hcc (((Prod.mk.injEq _ _ _ _).mp heq).2.symm)
          simp [writeKey, hne]
        | inr code =>
          by_cases hcd : code = condCode
          · subst hcd
            rw [processItems_cons_cond hs hu]
            exact ih hc'
          · rw [processItems_cons_fatal hs hu hcd]

/-! ### The unanchored substring search of the sample engine -/

/-- A literal pattern occurring anywhere inside the subject is found: the
match is unanchored, not a full-string match. -/
theorem strContainsSub_middle (x pat y : String) :
    strContainsSub pat (x ++ pat ++ y) = true := by
  unfold strContainsSub
  rw [List.any_eq_true]
  refine ⟨x.data.length, ?_, ?_⟩
  · rw [List.mem_range]
    simp only [String.data_append, List.length_append]
    omega
  · simp only [String.data_append]
    rw [List.append_assoc, List.drop_left, List.take_left]
    simp

/-! ## The claims -/

/-- C1: for a channel `(b, c)` registered with pattern `p` (the only item for
channel `c` in bucket `b`'s registrations), after any finite sequence of
fault-free `apply` calls — any order, duplicates included — the stored
pointer is monotonically non-decreasing under byte-wise UTF-8 ordering
(every prefix step is `optLe`), and the final pointer equals the byte-wise
maximum of the `object_id`s of the applied events that hit collection `b` and
matched `p`, or `none` when no such event occurred. -/
theorem C1_pointer_monotone_and_is_byte_max {search : Engine}
    (pagesFor : String → List (List Item)) {b c p : String}
    (events : List (String × String)) (st₀ : Store)
    (hs : TotalEngine search)
    (hone : (pagesFor b).flatten.filter (fun it => it.1 == c) = [(c, p)])
    (hinit : st₀ (b, c) = none) :
    (∀ i : Nat,
      optLe (applySeq search pagesFor (events.take i) st₀ (b, c))
            (applySeq search pagesFor (events.take (i + 1)) st₀ (b, c)))
    ∧ applySeq search pagesFor events st₀ (b, c)
        = byteMax (matchedKeys search p b events) := by
  constructor
  · intro i
    exact applySeq_take_mono search pagesFor events st₀ (b, c) i
  · rw [applySeq_at_chan hs hone events st₀, hinit, chanFold_filter]
    rfl

theorem C1_pointer_monotone_and_is_byte_max_witness :
    (∀ i : Nat,
      optLe (applySeq litSearch (fun _ => [[("c1", "builds/")]])
              ([("bkt", "builds/v1.zip"), ("bkt", "builds/v0.zip")].take i)
              emptyStore ("bkt", "c1"))
            (applySeq litSearch (fun _ => [[("c1", "builds/")]])
              ([("bkt", "builds/v1.zip"), ("bkt", "builds/v0.zip")].take (i + 1))
              emptyStore ("bkt", "c1")))
    ∧ applySeq litSearch (fun _ => [[("c1", "builds/")]])
        [("bkt", "builds/v1.zip"), ("bkt", "builds/v0.zip")] emptyStore ("bkt", "c1")
        = byteMax (matchedKeys litSearch "builds/" "bkt"
            [("bkt", "builds/v1.zip"), ("bkt", "builds/v0.zip")]) :=
  C1_pointer_monotone_and_is_byte_max (fun _ => [[("c1", "builds/")]])
    [("bkt", "builds/v1.zip"), ("bkt", "builds/v0.zip")] emptyStore
    (fun pat s => ⟨strContainsSub pat s, rfl⟩) rfl rfl

/-- C2: for a matching registration `(c, pat)` the handler issues exactly one
conditioned write setting the pointer for key `(b, c)` to the object key `k`,
guarded by exactly "`ObjectKey` absent OR stored `ObjectKey` byte-wise below
`k`" evaluated against the store state at write time; it commits if and only
if that precondition holds, and otherwise the channel is reported
already-current with the store untouched. -/
theorem C2_conditioned_write_iff_precondition {search : Engine}
    {b k c pat : String} (pre post : List Item) {st st₁ : Store}
    {rep₁ : List (String × Outcome)}
    (hpre : processItems search noFault b k pre st [] = ⟨st₁, rep₁, none⟩)
    (hm : search pat k = Except.ok true) :
    (specPrecond st₁ b c k →
      processItems search noFault b k (pre ++ (c, pat) :: post) st []
        = processItems search noFault b k post (writeKey st₁ b c k)
            (rep₁ ++ [(c, Outcome.updated)]))
    ∧ (¬ specPrecond st₁ b c k →
      processItems search noFault b k (pre ++ (c, pat) :: post) st []
        = processItems search noFault b k post st₁
            (rep₁ ++ [(c, Outcome.alreadyCurrent)])) := by
  constructor
  · intro hp
    rw [processItems_append_ok _ hpre,
      processItems_cons_write hm (updateItem_noFault_pos hp)]
  · intro hp
    rw [processItems_append_ok _ hpre,
      processItems_cons_cond hm (updateItem_noFault_neg hp)]

theorem C2_conditioned_write_iff_precondition_witness :
    processItems litSearch noFault "bkt" "builds/v2.zip"
        ([] ++ ("c1", "builds/") :: []) emptyStore []
      = processItems litSearch noFault "bkt" "builds/v2.zip" []
          (writeKey emptyStore "bkt" "c1" "builds/v2.zip")
          ([] ++ [("c1", Outcome.updated)]) :=
  (C2_conditioned_write_iff_precondition [] [] rfl rfl).1 (Or.inl rfl)

/-- C7: pagination transparency — running the update loop over any splitting
of the registrations into pages is the same (stores, report, error) as
running it over the single page holding their concatenation; the loop keeps
re-querying while a continuation token is present. -/
theorem C7_pagination_transparent (search : Engine)
    (fault : String → Option String) (b k : String)
    (pages : List (List Item)) (st : Store) :
    applyEvent search fault pages b k st
      = applyEvent search fault [pages.flatten] b k st := by
  unfold applyEvent
  rw [runPages_join, runPages_join]
  simp

/-- C3: applying the same event `(b, k)` twice in succession, fault-free and
with no interleaving writers, leaves the store after the second apply equal
to the store after the first, and the second apply reports exactly the
matching channels, each as already-current (every conditioned write's
precondition fails), raising nothing. -/
theorem C3_reapply_idempotent {search : Engine} (hs : TotalEngine search)
    (pages : List (List Item)) (b k : String) (st₀ : Store) :
    (applyEvent search noFault pages b k
        (applyEvent search noFault pages b k st₀).store).store
      = (applyEvent search noFault pages b k st₀).store
    ∧ (applyEvent search noFault pages b k
        (applyEvent search noFault pages b k st₀).store).report
      = (pages.flatten.filter (fun it => matchB search it.2 k)).map
          (fun it => (it.1, Outcome.alreadyCurrent))
    ∧ (applyEvent search noFault pages b k
        (applyEvent search noFault pages b k st₀).store).err = none := by
  have hgood : ∀ it ∈ pages.flatten, search it.2 k = Except.ok true →
      goodPtr (applyEvent search noFault pages b k st₀).store (b, it.1) k := by
    intro it hmem hmatch
    unfold applyEvent
    rw [runPages_join]
    exact processItems_goodPtr_est hs st₀ [] it hmem hmatch
  have h2 : applyEvent search noFault pages b k
      (applyEvent search noFault pages b k st₀).store
      = ⟨(applyEvent search noFault pages b k st₀).store,
         [] ++ (pages.flatten.filter (fun it => matchB search it.2 k)).map
           (fun it => (it.1, Outcome.alreadyCurrent)), none⟩ := by
    show runPages search noFault b k pages _ [] = _
    rw [runPages_join]
    exact processItems_allGood hs _ [] hgood
  rw [h2]
  exact ⟨rfl, by simp, rfl⟩

theorem C3_reapply_idempotent_witness :
    (applyEvent litSearch noFault [[("c1", "builds/")]] "bkt" "builds/v1.zip"
        (applyEvent litSearch noFault [[("c1", "builds/")]] "bkt" "builds/v1.zip"
          emptyStore).store).store
      = (applyEvent litSearch noFault [[("c1", "builds/")]] "bkt" "builds/v1.zip"
          emptyStore).store
    ∧ (applyEvent litSearch noFault [[("c1", "builds/")]] "bkt" "builds/v1.zip"
        (applyEvent litSearch noFault [[("c1", "builds/")]] "bkt" "builds/v1.zip"
          emptyStore).store).report
      = ([[("c1", "builds/")]].flatten.filter
          (fun it => matchB litSearch it.2 "builds/v1.zip")).map
          (fun it => (it.1, Outcome.alreadyCurrent))
    ∧ (applyEvent litSearch noFault [[("c1", "builds/")]] "bkt" "builds/v1.zip"
        (applyEvent litSearch noFault [[("c1", "builds/")]] "bkt" "builds/v1.zip"
          emptyStore).store).err = none :=
  C3_reapply_idempotent (fun pat s => ⟨strContainsSub pat s, rfl⟩)
    [[("c1", "builds/")]] "bkt" "builds/v1.zip" emptyStore

/-- C4: an expected `ConditionalCheckFailedException` on the conditioned
write records the channel as already-current and the loop continues with the
remaining registrations and pages; any other `ClientError` code is re-raised
unmodified, aborting everything after it, while the writes committed before
the failure persist in the returned store. -/
theorem C4_condfail_continues_fatal_aborts {search : Engine}
    {fault : String → Option String} {b k c pat : String}
    (pre post : List Item) (morePages : List (List Item)) {st st₁ : Store}
    {rep₁ : List (String × Outcome)}
    (hpre : processItems search fault b k pre st [] = ⟨st₁, rep₁, none⟩)
    (hm : search pat k = Except.ok true) :
    (updateItem fault st₁ b c k = Sum.inr condCode →
      applyEvent search fault ((pre ++ (c, pat) :: post) :: morePages) b k st
        = runPages search fault b k (post :: morePages) st₁
            (rep₁ ++ [(c, Outcome.alreadyCurrent)]))
    ∧ (∀ code, fault c = some code → code ≠ condCode →
      applyEvent search fault ((pre ++ (c, pat) :: post) :: morePages) b k st
        = ⟨st₁, rep₁, some (PyErr.clientError code)⟩) := by
  constructor
  · intro hu
    have hpg : processItems search fault b k (pre ++ (c, pat) :: post) st []
        = processItems search fault b k post st₁
            (rep₁ ++ [(c, Outcome.alreadyCurrent)]) := by
      rw [processItems_append_ok _ hpre, processItems_cons_cond hm hu]
    show (let r := processItems search fault b k (pre ++ (c, pat) :: post) st []
      match r.err with
      | none => runPages search fault b k morePages r.store r.report
      | some _ => r) = _
    rw [hpg]
    rfl
  · intro code hf hc
    have hpg : processItems search fault b k (pre ++ (c, pat) :: post) st []
        = ⟨st₁, rep₁, some (PyErr.clientError code)⟩ := by
      rw [processItems_append_ok _ hpre,
        processItems_cons_fatal hm (updateItem_fault hf) hc]
    show (let r := processItems search fault b k (pre ++ (c, pat) :: post) st []
      match r.err with
      | none => runPages search fault b k morePages r.store r.report
      | some _ => r) = _
    rw [hpg]

theorem C4_condfail_continues_fatal_aborts_witness :
    applyEvent litSearch (fun ch => if ch = "c2" then some "Throttling" else none)
        (([("c1", "builds/")] ++ ("c2", "builds/") :: [("c3", "builds/")]) :: [])
        "bkt" "builds/v1.zip" emptyStore
      = ⟨writeKey emptyStore "bkt" "c1" "builds/v1.zip",
         [("c1", Outcome.updated)], some (PyErr.clientError "Throttling")⟩ :=
  (C4_condfail_continues_fatal_aborts [("c1", "builds/")] [("c3", "builds/")] []
      rfl rfl).2 "Throttling" rfl (by decide)

/-- C9: when the regex engine raises on a registration's pattern (invalid
regular expression at the `re.search` call site, which sits outside the
`try` block), the error propagates out of the run unmodified — it is a
distinct error from the `AssertionError` of malformed payloads/registrations
and from any re-raised `ClientError`, no already-current entry is recorded —
and processing of all remaining registrations and pages is aborted while the
earlier committed writes remain in the returned store. -/
theorem C9_invalid_pattern_propagates {search : Engine}
    {fault : String → Option String} {b k c pat : String}
    (pre post : List Item) (morePages : List (List Item)) {st st₁ : Store}
    {rep₁ : List (String × Outcome)}
    (hpre : processItems search fault b k pre st [] = ⟨st₁, rep₁, none⟩)
    (hre : search pat k = Except.error (PyErr.reError pat)) :
    applyEvent search fault ((pre ++ (c, pat) :: post) :: morePages) b k st
      = ⟨st₁, rep₁, some (PyErr.reError pat)⟩
    ∧ (∀ code, PyErr.reError pat ≠ PyErr.clientError code)
    ∧ PyErr.reError pat ≠ PyErr.assertionError := by
  refine ⟨?_, fun code => by simp, by simp⟩
  have hpg : processItems search fault b k (pre ++ (c, pat) :: post) st []
      = ⟨st₁, rep₁, some (PyErr.reError pat)⟩ := by
    rw [processItems_append_ok _ hpre, processItems_cons_raise hre]
  show (let r := processItems search fault b k (pre ++ (c, pat) :: post) st []
    match r.err with
    | none => runPages search fault b k morePages r.store r.report
    | some _ => r) = _
  rw [hpg]

theorem C9_invalid_pattern_propagates_witness :
    applyEvent
        (fun pat s =>
          if pat = "[" then Except.error (PyErr.reError pat) else litSearch pat s)
        noFault (([("c1", "builds/")] ++ ("c2", "[") :: [("c3", "builds/")]) :: [])
        "bkt" "builds/v1.zip" emptyStore
      = ⟨writeKey emptyStore "bkt" "c1" "builds/v1.zip",
         [("c1", Outcome.updated)], some (PyErr.reError "[")⟩
    ∧ (∀ code, PyErr.reError "[" ≠ PyErr.clientError code)
    ∧ PyErr.reError "[" ≠ PyErr.assertionError :=
  C9_invalid_pattern_propagates [("c1", "builds/")] [("c3", "builds/")] []
    rfl rfl

/-- C6: a registration whose pattern does not match the object key is
skipped: no write is attempted (the run is unchanged even under an injected
write fault for that channel), and when every item for a channel `c` fails
its pattern test, the pointer at `(b, c)` is left untouched and `c` never
appears in the report.  The match test of the model engine is an unanchored
substring search: a literal pattern occurring anywhere in the subject
matches. -/
theorem C6_nonmatching_registration_noop (search : Engine)
    (fault : String → Option String) (b k c : String) :
    (∀ (pat : String) (pre post : List Item) (morePages : List (List Item))
        (st st₁ : Store) (rep₁ : List (String × Outcome)),
      processItems search fault b k pre st [] = ⟨st₁, rep₁, none⟩ →
      search pat k = Except.ok false →
      applyEvent search fault ((pre ++ (c, pat) :: post) :: morePages) b k st
        = runPages search fault b k (post :: morePages) st₁ rep₁)
    ∧ (∀ (pages : List (List Item)) (st : Store),
      (∀ it ∈ pages.flatten, it.1 = c → search it.2 k = Except.ok false) →
      (applyEvent search fault pages b k st).store (b, c) = st (b, c)
        ∧ ∀ o, (c, o) ∉ (applyEvent search fault pages b k st).report)
    ∧ (∀ x pat y : String, litSearch pat (x ++ pat ++ y) = Except.ok true) := by
  refine ⟨?_, ?_, ?_⟩
  · intro pat pre post morePages st st₁ rep₁ hpre hnm
    have hpg : processItems search fault b k (pre ++ (c, pat) :: post) st []
        = processItems search fault b k post st₁ rep₁ := by
      rw [processItems_append_ok _ hpre, processItems_cons_skip hnm]
    show (let r := processItems search fault b k (pre ++ (c, pat) :: post) st []
      match r.err with
      | none => runPages search fault b k morePages r.store r.report
      | some _ => r) = _
    rw [hpg]
    rfl
  · intro pages st hall
    constructor
    · show (runPages search fault b k pages st []).store (b, c) = st (b, c)
      rw [runPages_join]
      exact processItems_frame_nomatch c hall
    · intro o hmem
      have hx : ((c, o) : String × Outcome)
          ∈ (runPages search fault b k pages st []).report := hmem
      rw [runPages_join] at hx
      rcases processItems_report_mem _ hx with h | ⟨it, hit, h1, h2⟩
      · cases h
      · have := hall it hit h1
        rw [h2] at this
        cases this
  · intro x pat y
    unfold litSearch
    rw [strContainsSub_middle]

theorem C6_nonmatching_registration_noop_witness :
    applyEvent litSearch (fun ch => if ch = "c1" then some "Throttling" else none)
        (([] ++ ("c1", "zzz") :: []) :: []) "bkt" "builds/v1.zip" emptyStore
      = runPages litSearch (fun ch => if ch = "c1" then some "Throttling" else none)
          "bkt" "builds/v1.zip" ([] :: []) emptyStore []
    ∧ ((applyEvent litSearch (fun ch => if ch = "c1" then some "Throttling" else none)
          [[("c1", "zzz")]] "bkt" "builds/v1.zip" emptyStore).store ("bkt", "c1")
        = emptyStore ("bkt", "c1")
      ∧ ∀ o, (("c1", o) : String × Outcome)
          ∉ (applyEvent litSearch
              (fun ch => if ch = "c1" then some "Throttling" else none)
              [[("c1", "zzz")]] "bkt" "builds/v1.zip" emptyStore).report)
    ∧ litSearch "bc" ("a" ++ "bc" ++ "d") = Except.ok true := by
  refine ⟨?_, ?_, ?_⟩
  · exact (C6_nonmatching_registration_noop litSearch
      (fun ch => if ch = "c1" then some "Throttling" else none)
      "bkt" "builds/v1.zip" "c1").1 "zzz" [] [] [] emptyStore emptyStore [] rfl rfl
  · exact (C6_nonmatching_registration_noop litSearch
      (fun ch => if ch = "c1" then some "Throttling" else none)
      "bkt" "builds/v1.zip" "c1").2.1 [[("c1", "zzz")]] emptyStore
      (by
        intro it hmem heq
        have h1 : it = ("c1", "zzz") := by simpa using hmem
        rw [h1]
        rfl)
  · exact (C6_nonmatching_registration_noop litSearch
      (fun ch => if ch = "c1" then some "Throttling" else none)
      "bkt" "builds/v1.zip" "c1").2.2 "a" "bc" "d"

/-- C5: normalization fails with the malformed-event error (the script's
`assert len(event['Records']) == 1` → `AssertionError`) whenever the
payload's record count is not exactly one; when the single record is an SNS
envelope it unwraps exactly one level by re-parsing `Sns.Message` and fails
the same way when the inner payload's record count is not exactly one;
otherwise it returns exactly the record's bucket name and object key. -/
theorem C5_single_record_validation (loads : String → Except PyErr JVal) :
    (∀ (recs : List JVal) (extra : List (String × JVal)), recs.length ≠ 1 →
      extractEvent loads (JVal.jobj (("Records", JVal.jarr recs) :: extra))
        = Except.error PyErr.assertionError)
    ∧ (∀ (msg : String) (mrest rrest : List (String × JVal)) (irecs : List JVal)
        (irest : List (String × JVal)),
      loads msg = Except.ok (JVal.jobj (("Records", JVal.jarr irecs) :: irest)) →
      irecs.length ≠ 1 →
      extractEvent loads (JVal.jobj
          [("Records", JVal.jarr [JVal.jobj
            (("Sns", JVal.jobj (("Message", JVal.jstr msg) :: mrest)) :: rrest)])])
        = Except.error PyErr.assertionError)
    ∧ (∀ bname okey : String,
      extractEvent loads (s3Payload bname okey) = Except.ok (bname, okey)) := by
  refine ⟨?_, ?_, ?_⟩
  · intro recs extra hn
    simp [extractEvent, getKey, pyLen, List.lookup, hn, Bind.bind, Except.bind,
      throw, throwThe, MonadExceptOf.throw]
  · intro msg mrest rrest irecs irest hload hn
    simp [extractEvent, getKey, pyLen, idx0, pyIn, asStr, List.lookup, hload, hn,
      Bind.bind, Except.bind, throw, throwThe, MonadExceptOf.throw, pure,
      Except.pure]
  · intro bname okey
    rfl

theorem C5_single_record_validation_witness :
    extractEvent (fun _ => Except.ok (JVal.jobj [("Records", JVal.jarr [])]))
        (JVal.jobj [("Records", JVal.jarr [])])
      = Except.error PyErr.assertionError
    ∧ extractEvent (fun _ => Except.ok (JVal.jobj [("Records", JVal.jarr [])]))
        (JVal.jobj [("Records", JVal.jarr [JVal.jobj
          [("Sns", JVal.jobj [("Message", JVal.jstr "m")])]])])
      = Except.error PyErr.assertionError
    ∧ extractEvent (fun _ => Except.ok (JVal.jobj [("Records", JVal.jarr [])]))
        (s3Payload "bkt" "k1") = Except.ok ("bkt", "k1") :=
  ⟨(C5_single_record_validation _).1 [] [] (by decide),
   (C5_single_record_validation _).2.1 "m" [] [] [] [] rfl (by decide),
   (C5_single_record_validation _).2.2 "bkt" "k1"⟩

/-- C8: normalization is a pure function — deterministic (equal results on
every run over the same payload, and it performs no store access by
construction) — and the extracted collection and object identifiers are the
payload's bucket name and object key verbatim, unaltered, both for a direct
payload and for an SNS-enveloped one. -/
theorem C8_normalization_pure_verbatim (loads : String → Except PyErr JVal) :
    (∀ (p : JVal) (r₁ r₂ : Except PyErr (String × String)),
      extractEvent loads p = r₁ → extractEvent loads p = r₂ → r₁ = r₂)
    ∧ (∀ bname okey : String,
      extractEvent loads (s3Payload bname okey) = Except.ok (bname, okey))
    ∧ (∀ bname okey msg : String,
      loads msg = Except.ok (s3Payload bname okey) →
      extractEvent loads (snsPayload msg) = Except.ok (bname, okey)) := by
  refine ⟨?_, ?_, ?_⟩
  · intro p r₁ r₂ h1 h2
    rw [← h1, ← h2]
  · intro bname okey
    rfl
  · intro bname okey msg hload
    simp [extractEvent, s3Payload, snsPayload, getKey, pyLen, idx0, pyIn, asStr,
      List.lookup, hload, Bind.bind, Except.bind, throw, throwThe,
      MonadExceptOf.throw, pure, Except.pure]

theorem C8_normalization_pure_verbatim_witness :
    (extractEvent (fun _ => Except.ok (s3Payload "bkt" "k1"))
        (snsPayload "m") = Except.ok ("bkt", "k1") →
      extractEvent (fun _ => Except.ok (s3Payload "bkt" "k1"))
        (snsPayload "m") = Except.ok ("bkt", "k1") →
      (Except.ok ("bkt", "k1") : Except PyErr (String × String))
        = Except.ok ("bkt", "k1"))
    ∧ extractEvent (fun _ => Except.ok (s3Payload "bkt" "k1"))
        (s3Payload "BkT" "A/b.Zip") = Except.ok ("BkT", "A/b.Zip")
    ∧ extractEvent (fun _ => Except.ok (s3Payload "bkt" "k1"))
        (snsPayload "m") = Except.ok ("bkt", "k1") :=
  ⟨(C8_normalization_pure_verbatim _).1 (snsPayload "m") _ _,
   (C8_normalization_pure_verbatim _).2.1 "BkT" "A/b.Zip",
   (C8_normalization_pure_verbatim _).2.2 "bkt" "k1" "m" rfl⟩

/-- C10: when the record selected for extraction lacks the `s3` field — the
outer record when it is no envelope, or the inner record after the single
permitted unwrap — the handler fails with the key-lookup error
`KeyError 's3'`, not with the malformed-event `AssertionError`; in
particular a doubly-enveloped payload (inner record again carrying `Sns`) is
never unwrapped a second time and fails this way. -/
theorem C10_missing_s3_keyerror (loads : String → Except PyErr JVal) :
    (∀ (rf extra : List (String × JVal)),
      rf.lookup "Sns" = none → rf.lookup "s3" = none →
      extractEvent loads (JVal.jobj (("Records", JVal.jarr [JVal.jobj rf]) :: extra))
        = Except.error (PyErr.keyError "s3"))
    ∧ (∀ (msg : String) (w : JVal) (irf irest : List (String × JVal)),
      loads msg
          = Except.ok (JVal.jobj (("Records", JVal.jarr [JVal.jobj irf]) :: irest)) →
      irf.lookup "Sns" = some w → irf.lookup "s3" = none →
      extractEvent loads (snsPayload msg) = Except.error (PyErr.keyError "s3"))
    ∧ PyErr.keyError "s3" ≠ PyErr.assertionError := by
  refine ⟨?_, ?_, by simp⟩
  · intro rf extra hsns hs3
    simp [extractEvent, getKey, pyLen, idx0, pyIn, asStr, List.lookup, hsns, hs3,
      Bind.bind, Except.bind, throw, throwThe, MonadExceptOf.throw, pure,
      Except.pure]
  · intro msg w irf irest hload _hsns hs3
    simp [extractEvent, snsPayload, getKey, pyLen, idx0, pyIn, asStr,
      List.lookup, hload, hs3, Bind.bind, Except.bind, throw, throwThe,
      MonadExceptOf.throw, pure, Except.pure]

theorem C10_missing_s3_keyerror_witness :
    extractEvent
        (fun _ => Except.ok (JVal.jobj [("Records",
          JVal.jarr [JVal.jobj [("Sns", JVal.jstr "x")]])]))
        (JVal.jobj [("Records", JVal.jarr [JVal.jobj []])])
      = Except.error (PyErr.keyError "s3")
    ∧ extractEvent
        (fun _ => Except.ok (JVal.jobj [("Records",
          JVal.jarr [JVal.jobj [("Sns", JVal.jstr "x")]])]))
        (snsPayload "m") = Except.error (PyErr.keyError "s3")
    ∧ PyErr.keyError "s3" ≠ PyErr.assertionError :=
  ⟨(C10_missing_s3_keyerror _).1 [] [] rfl rfl,
   (C10_missing_s3_keyerror _).2.1 "m" (JVal.jstr "x") [("Sns", JVal.jstr "x")] []
     rfl rfl rfl,
   (C10_missing_s3_keyerror (fun _ => Except.ok (JVal.jobj [("Records",
     JVal.jarr [JVal.jobj [("Sns", JVal.jstr "x")]])]))).2.2⟩

end LatestFiles
